import Mathlib

/-!
Verification development for the TAFFC-SSL-FER semi-supervised training core.

Shallow embedding of:
- `models/pimodel/pimodel.py` (class `PiModel`: `train`, `evaluate`,
  `save_model`, `load_model`, `interleave_offsets`);
- `models/remixmatch/remixmatch_utils.py` (`mixup_one_target`,
  `consistency_loss`).

Real-valued tensor entries are embedded as rationals (`ℚ`); the
transcendental `exp` used by softmax is abstracted as a function
parameter, which is enough for every structural property proved here.
-/

namespace SSLFER

/-! ## Warmup schedule (pimodel.py lines 101-102)

`np.clip(x, a_min, a_max)` computes `min(a_max, max(a_min, x))`
(for `a_min ≤ a_max`, which holds at the call site `0.0 ≤ 1.0`). -/

def npclip (x lo hi : ℚ) : ℚ := min hi (max lo x)

/-- `unsup_warmup = np.clip(self.it / (args.unsup_warmup_pos * args.num_train_iter),
    a_min=0.0, a_max=1.0)` — pimodel.py lines 101-102. -/
def unsup_warmup (it : ℕ) (unsup_warmup_pos : ℚ) (num_train_iter : ℕ) : ℚ :=
  npclip ((it : ℚ) / (unsup_warmup_pos * (num_train_iter : ℚ))) 0 1

/-! ## Loss primitives

`torch.softmax(l, dim=-1)` and `F.mse_loss(a, b, reduction='mean')`,
over a single logit vector embedded as `List ℚ` with `exp` abstract. -/

def softmax (exp : ℚ → ℚ) (l : List ℚ) : List ℚ :=
  l.map (fun z => exp z / (l.map exp).sum)

def mse_loss (a b : List ℚ) : ℚ :=
  (((a.zip b).map (fun p => (p.1 - p.2) ^ 2)).sum) / (((a.zip b).length : ℕ) : ℚ)

/-- Modelled from the spec: `models/pimodel/pimodel_utils.py` (imported at
pimodel.py line 9, `from .pimodel_utils import consistency_loss`) is not
under `src/`. Per spec §4.3, the PiModel unsupervised loss is the
"mean-squared-error between softmax outputs of two weakly-augmented views
of the same unlabeled image". -/
def consistency_loss (exp : ℚ → ℚ) (logits_w1 logits_w2 : List ℚ) : ℚ :=
  mse_loss (softmax exp logits_w1) (softmax exp logits_w2)

/-- `consistency_loss` of `models/remixmatch/remixmatch_utils.py` lines 48-49:
`F.mse_loss(torch.softmax(logits_w, dim=-1), y, reduction='mean')` — softmax
on the first operand only, the target `y` is used as given. -/
def remixmatch_consistency_loss (exp : ℚ → ℚ) (logits_w : List ℚ) (y : List ℚ) : ℚ :=
  mse_loss (softmax exp logits_w) y

/-! ## One training iteration (pimodel.py lines 98-127)

The iteration body is embedded as a straight-line state thread.  The
`Bn_Controller` of `train_utils` is external to `src/`; per spec §4.2 it
toggles a statistics-update flag, embedded here as `BnCtl.frozen`.  Each
forward pass records the flag value in force when it ran, so the event
trace is derived from the threaded controller state, not hand-assigned. -/

inductive FwKind
  | lb
  | ulb_w1
  | ulb_w2
  deriving DecidableEq, Repr

inductive TraceEv
  | forward (k : FwKind) (bnFrozen : Bool)
  | freeze_bn
  | unfreeze_bn
  | compose_loss
  deriving DecidableEq, Repr

structure BnCtl where
  frozen : Bool
  deriving DecidableEq, Repr

/-- `Bn_Controller.freeze_bn` (spec §4.2): disable statistics updates. -/
def freeze_bn (_ : BnCtl) : BnCtl := ⟨true⟩

/-- `Bn_Controller.unfreeze_bn` (spec §4.2): re-enable statistics updates. -/
def unfreeze_bn (_ : BnCtl) : BnCtl := ⟨false⟩

/-- A forward pass: records the batch kind together with the controller
state in force at the moment it runs. -/
def fwd (st : BnCtl × List TraceEv) (k : FwKind) : BnCtl × List TraceEv :=
  (st.1, st.2 ++ [TraceEv.forward k st.1.frozen])

structure IterOut where
  events : List TraceEv
  sup_loss : ℚ
  unsup_loss : ℚ
  total_loss : ℚ
  warmup : ℚ

/-- One iteration of the `PiModel.train` loop body (pimodel.py lines
98-127), restricted to the loss/BN computation the claims are about.
`forward` is the shared network (architecture external to the core),
`ce_loss` is `train_utils.ce_loss` (external to `src/`, kept abstract),
`exp` feeds `consistency_loss`'s softmax. -/
def train_iter {α β : Type} (lambda_u : ℚ) (unsup_warmup_pos : ℚ) (num_train_iter : ℕ)
    (it : ℕ) (forward : α → List ℚ) (ce_loss : List ℚ → β → ℚ) (exp : ℚ → ℚ)
    (x_lb : α) (y_lb : β) (x_ulb_w1 x_ulb_w2 : α) : IterOut :=
  -- line 101: unsup_warmup = np.clip(...)
  let warm := unsup_warmup it unsup_warmup_pos num_train_iter
  -- model starts the iteration in train mode with BN statistics updating
  let st0 : BnCtl × List TraceEv := (⟨false⟩, [])
  -- line 115: logits_x_lb = self.model(x_lb)
  let logits_x_lb := forward x_lb
  let st1 := fwd st0 FwKind.lb
  -- line 118: self.bn_controller.freeze_bn(self.model)
  let st2 := (freeze_bn st1.1, st1.2 ++ [TraceEv.freeze_bn])
  -- line 119: logits_x_ulb_w1 = self.model(x_ulb_w1)
  let logits_x_ulb_w1 := forward x_ulb_w1
  let st3 := fwd st2 FwKind.ulb_w1
  -- line 120: logits_x_ulb_w2 = self.model(x_ulb_w2)
  let logits_x_ulb_w2 := forward x_ulb_w2
  let st4 := fwd st3 FwKind.ulb_w2
  -- line 122: self.bn_controller.unfreeze_bn(self.model)
  let st5 := (unfreeze_bn st4.1, st4.2 ++ [TraceEv.unfreeze_bn])
  -- line 124: sup_loss = ce_loss(logits_x_lb, y_lb, reduction='mean')
  let sup_loss := ce_loss logits_x_lb y_lb
  -- lines 125-126: unsup_loss = consistency_loss(logits_x_ulb_w1, logits_x_ulb_w2)
  let unsup_loss := consistency_loss exp logits_x_ulb_w1 logits_x_ulb_w2
  -- line 127: total_loss = sup_loss + self.lambda_u * unsup_loss * unsup_warmup
  let total_loss := sup_loss + lambda_u * unsup_loss * warm
  let st6 := (st5.1, st5.2 ++ [TraceEv.compose_loss])
  { events := st6.2
    sup_loss := sup_loss
    unsup_loss := unsup_loss
    total_loss := total_loss
    warmup := warm }

/-! ## EMA substitution and `evaluate` (pimodel.py lines 207-234)

Modelled from the spec: `train_utils.EMA` is not under `src/`.  Per spec
§4.1, `apply_shadow()` "swaps the live model's parameters for the shadow
values in place" (backing the originals up) and `restore()` "swaps the
originals back".  Parameter vectors are embedded as `List ℤ` (only
identity of values matters to the claims). -/

structure EmaModel where
  params : List ℤ
  shadow : List ℤ
  backup : List ℤ
  training : Bool
  deriving DecidableEq, Repr

/-- Modelled from the spec (§4.1): `EMA.apply_shadow` backs up the live
parameters and installs the shadow values. -/
def apply_shadow (s : EmaModel) : EmaModel :=
  { s with backup := s.params, params := s.shadow }

/-- Modelled from the spec (§4.1): `EMA.restore` reinstates the backup. -/
def restore (s : EmaModel) : EmaModel :=
  { s with params := s.backup }

/-- `PiModel.evaluate` (pimodel.py lines 207-234), control flow only.
The body (the loop over `eval_loader` with forward passes and metric
computation, lines 218-230) is abstracted as `evalBody`, which may raise
(`Except.error`).  The source has no try/finally: `self.ema.restore()`
at line 232 runs only if the body returns normally, so on the error path
the function propagates the exception with the shadow still applied. -/
def evaluate (s : EmaModel) (evalBody : List ℤ → Except Unit ℚ) :
    Except Unit ℚ × EmaModel :=
  -- line 209: self.model.eval()
  let s1 := { s with training := false }
  -- line 210: self.ema.apply_shadow()
  let s2 := apply_shadow s1
  -- lines 218-230: evaluation loop (may raise)
  match evalBody s2.params with
  | Except.error e => (Except.error e, s2)
  | Except.ok m =>
    -- line 232: self.ema.restore()
    let s3 := restore s2
    -- line 233: self.model.train()
    let s4 := { s3 with training := true }
    (Except.ok m, s4)

/-! ## Best-accuracy tracker and best-checkpoint write
(pimodel.py lines 169-186) -/

structure BestTracker where
  best_eval_acc : ℚ
  best_it : ℕ
  deriving DecidableEq, Repr

/-- Lines 175-177: `if tb_dict['eval/top-1-acc'] > best_eval_acc:
best_eval_acc = ...; best_it = self.it`. -/
def eval_update (it : ℕ) (tr : BestTracker) (top1 : ℚ) : BestTracker :=
  if top1 > tr.best_eval_acc then ⟨top1, it⟩ else tr

/-- Lines 182-186: on the checkpoint-writing rank, `model_best.pth` is
saved when `self.it == best_it` (after the line 175-177 update). -/
def best_ckpt_written (it : ℕ) (tr : BestTracker) (top1 : ℚ)
    (isSaveRank : Bool) : Bool :=
  let tr2 := eval_update it tr top1
  isSaveRank && decide (it = tr2.best_it)

/-! ## `mixup_one_target` (remixmatch_utils.py lines 30-45)

The Beta(alpha, alpha) draw is abstracted as the input `lamDraw`, and
`torch.randperm` as the input `index`; batches are `Fin n → ℚ`. -/

def mixup_one_target {n : ℕ} (x y : Fin n → ℚ) (alpha : ℚ) (is_bias : Bool)
    (lamDraw : ℚ) (index : Fin n → Fin n) :
    (Fin n → ℚ) × (Fin n → ℚ) × ℚ :=
  -- lines 33-36: lam = np.random.beta(alpha, alpha) if alpha > 0 else 1
  let lam0 := if 0 < alpha then lamDraw else 1
  -- line 37: if is_bias: lam = max(lam, 1 - lam)
  let lam := if is_bias then max lam0 (1 - lam0) else lam0
  -- lines 43-44: mixed over one shared random permutation of the batch
  let mixed_x := fun i => lam * x i + (1 - lam) * x (index i)
  let mixed_y := fun i => lam * y i + (1 - lam) * y (index i)
  (mixed_x, mixed_y, lam)

/-! ## `interleave_offsets` (pimodel.py lines 316-324) -/

/-- The `for x in range(batch - sum(groups)): groups[-x - 1] += 1` body:
Python's negative index `-x-1` is `len(g) - x - 1`. -/
def bump_group (g : List ℕ) (x : ℕ) : List ℕ :=
  g.set (g.length - x - 1) (g.getD (g.length - x - 1) 0 + 1)

/-- `PiModel.interleave_offsets` (lines 316-324).  The trailing `assert
offsets[-1] == batch` is embedded by returning `none` when it would
fail. -/
def interleave_offsets (batch nu : ℕ) : Option (List ℕ) :=
  -- line 317: groups = [batch // (nu + 1)] * (nu + 1)
  let groups0 := List.replicate (nu + 1) (batch / (nu + 1))
  -- lines 318-319
  let groups := (List.range (batch - groups0.sum)).foldl bump_group groups0
  -- lines 320-322: offsets = [0]; for g in groups: offsets.append(offsets[-1] + g)
  let offsets := List.scanl (· + ·) 0 groups
  -- line 323: assert offsets[-1] == batch
  if offsets.getLast? = some batch then some offsets else none

/-! ## Checkpoint save / load (pimodel.py lines 236-313)

Parameter names are embedded as `List Char`; parameter values as `ℤ`.
A state dict (`model.state_dict()`) is the ordered association list of
(name, value) pairs.  `torch.nn.Module.load_state_dict` (strict mode,
the default used by the source) raises unless the stored keys match the
module's keys; the embedding returns `none` in that case.  Optimizer and
scheduler states are opaque (`ℤ`). -/

abbrev PName := List Char

/-- The replicated-model parameter prefix `"module."`. -/
def MODULE : PName := ['m', 'o', 'd', 'u', 'l', 'e', '.']

/-- Python's `str.replace(pat, "")`: delete every leftmost,
non-overlapping occurrence of `pat`.  Structured with explicit fuel so
it is structurally recursive; every recursive call shortens the list,
so fuel equal to the list length (as supplied by `replaceAll`) is never
exhausted. -/
def replaceAllF (pat : PName) : ℕ → PName → PName
  | _, [] => []
  | 0, s => s
  | fuel + 1, c :: rest =>
    if pat.isPrefixOf (c :: rest) then
      replaceAllF pat fuel (rest.drop (pat.length - 1))
    else
      c :: replaceAllF pat fuel rest

/-- `k.replace("module.", "")` as used at pimodel.py lines 271, 279
(with `pat := MODULE`). -/
def replaceAll (pat s : PName) : PName := replaceAllF pat s.length s

/-- `pat` occurs somewhere in `s` (as a contiguous substring). -/
def hasOccur (pat : PName) : PName → Bool
  | [] => pat.isEmpty
  | c :: rest => pat.isPrefixOf (c :: rest) || hasOccur pat rest

/-- An ordered state dict: parameter name to value. -/
abbrev StateDict := List (PName × ℤ)

/-- A network as the checkpoint manager sees it: whether it is wrapped in
`DistributedDataParallel` (which prefixes every parameter name with
`"module."`), its base parameter names, and its parameter values. -/
structure NetModel where
  ddp : Bool
  names : List PName
  vals : List ℤ
  deriving DecidableEq, Repr

/-- The parameter keys of `m.state_dict()`: prefixed iff replicated. -/
def NetModel.keys (m : NetModel) : List PName :=
  if m.ddp then m.names.map (fun n => MODULE ++ n) else m.names

def NetModel.state_dict (m : NetModel) : StateDict :=
  m.keys.zip m.vals

/-- `load_state_dict` in strict mode: succeeds (returning the updated
module) iff the stored keys coincide with the module's keys; otherwise
the underlying deserialization raises a compatibility error (`none`). -/
def load_state_dict (m : NetModel) (sd : StateDict) : Option NetModel :=
  if sd.map Prod.fst = m.keys then some { m with vals := sd.map Prod.snd } else none

/-- The checkpoint record (pimodel.py lines 245-249). -/
structure Checkpoint where
  model : StateDict
  optimizer : ℤ
  scheduler : ℤ
  it : ℕ
  ema_model : StateDict
  deriving DecidableEq, Repr

/-- The persistent training state of a `PiModel` instance, restricted to
the fields `save_model`/`load_model` touch. -/
structure PiState where
  model : NetModel
  ema_model : NetModel
  optimizer : ℤ
  scheduler : ℤ
  it : ℕ
  deriving DecidableEq, Repr

/-- `PiModel.save_model` (lines 236-252): under a scoped EMA
apply/restore it deep-copies the model carrying the shadow values
(`shadow` here is the EMA tracker's shadow vector), then serializes the
live model's state dict, optimizer, scheduler, iteration counter, and
the shadow copy's state dict. -/
def save_model (s : PiState) (shadow : List ℤ) : Checkpoint :=
  { model := s.model.state_dict
    optimizer := s.optimizer
    scheduler := s.scheduler
    it := s.it
    ema_model := ({ s.model with vals := shadow } : NetModel).state_dict }

/-- Rename every stored key with `k.replace("module.", "")`
(lines 268-281). -/
def strip_module_sd (sd : StateDict) : StateDict :=
  sd.map (fun kv => (replaceAll MODULE kv.1, kv.2))

/-- Rename every stored key with `"module." + k` (lines 291-304). -/
def add_module_sd (sd : StateDict) : StateDict :=
  sd.map (fun kv => (MODULE ++ kv.1, kv.2))

/-- The `try` block of `load_model` (lines 259-262): direct
deserialization of the model and EMA-model state dicts. -/
def direct_load (s : PiState) (c : Checkpoint) : Option (NetModel × NetModel) :=
  -- line 257: self.ema_model = deepcopy(self.model)
  let emaInit := s.model
  match load_state_dict s.model c.model with
  | none => none
  | some m =>
    match load_state_dict emaInit c.ema_model with
    | none => none
    | some e => some (m, e)

/-- The try/except of `load_model` (lines 259-310): direct load, else
name-based reconciliation chosen by the current model's wrapping.  A
non-replicated current model strips the `"module."` prefix from every
stored key (Scenario 1, lines 266-287), a replicated one adds it
(Scenario 2, lines 289-310).  If the fallback load itself raises, the
exception propagates (`none`). -/
def loaded_models (s : PiState) (c : Checkpoint) : Option (NetModel × NetModel) :=
  -- line 257: self.ema_model = deepcopy(self.model)
  let emaInit := s.model
  match direct_load s c with
  | some me => some me
  | none =>
    -- Scenario 1: current single gpu & loading multi-gpu (line 267)
    if s.model.ddp = false then
      match load_state_dict s.model (strip_module_sd c.model) with
      | none => none
      | some m =>
        match load_state_dict emaInit (strip_module_sd c.ema_model) with
        | none => none
        | some e => some (m, e)
    -- Scenario 2: saved multi-gpu loading single-gpu (line 290)
    else
      match load_state_dict s.model (add_module_sd c.model) with
      | none => none
      | some m =>
        match load_state_dict emaInit (add_module_sd c.ema_model) with
        | none => none
        | some e => some (m, e)

/-- `PiModel.load_model` (lines 254-313).  The source restores optimizer,
scheduler and iteration both inside the fallback branches (lines 284-286,
307-309) and unconditionally after the try/except (lines 311-313); the
final unconditional assignment determines the returned state. -/
def load_model (s : PiState) (c : Checkpoint) : Option PiState :=
  (loaded_models s c).map fun me =>
    { model := me.1, ema_model := me.2,
      optimizer := c.optimizer, scheduler := c.scheduler, it := c.it }

/-! Concrete instances used by witnesses. -/

def ex_names : List PName := ["conv.w".data]

def ex_saver : PiState :=
  ⟨⟨true, ex_names, [3]⟩, ⟨true, ex_names, [0]⟩, 7, 8, 42⟩

def ex_loader : PiState :=
  ⟨⟨false, ex_names, [0]⟩, ⟨false, ex_names, [0]⟩, 0, 0, 0⟩

def ex_ckpt : Checkpoint := save_model ex_saver [9]

/-! # Theorems -/

/-- C1: the claim asserts `restore` runs on every exit path of
`evaluate`, including the path where the evaluation computation raises.
The source (pimodel.py lines 207-234) has no try/finally, so on the
exception path the live model keeps the shadow weights.  This theorem
evaluates the code at a failing input: a body that raises.  On that path
`evaluate` returns with live params still equal to the shadow `[1]`, not
the original `[0]`; on the normal path the same state is restored to
`[0]`. -/
theorem evaluate_exception_skips_restore :
    (evaluate ⟨[0], [1], [0], true⟩ (fun _ => Except.error ())).2.params = [1] ∧
    (evaluate ⟨[0], [1], [0], true⟩ (fun _ => Except.error ())).1 = Except.error () ∧
    (evaluate ⟨[0], [1], [0], true⟩ (fun _ => Except.error ())).2.params ≠
      (⟨[0], [1], [0], true⟩ : EmaModel).params ∧
    (evaluate ⟨[0], [1], [0], true⟩ (fun _ => Except.ok 1)).2.params =
      (⟨[0], [1], [0], true⟩ : EmaModel).params :=
  ⟨rfl, rfl, by decide, rfl⟩

/-- C4: in every training iteration the composed loss equals
`sup_loss + lambda_u * unsup_loss * warmup_factor` with
`warmup_factor = clip(it / (unsup_warmup_pos * num_train_iter), 0, 1)`
(pimodel.py lines 101-102 and 127). -/
theorem total_loss_formula {α β : Type} (lambda_u unsup_warmup_pos : ℚ)
    (num_train_iter it : ℕ) (forward : α → List ℚ) (ce_loss : List ℚ → β → ℚ)
    (exp : ℚ → ℚ) (x_lb : α) (y_lb : β) (x_ulb_w1 x_ulb_w2 : α) :
    (train_iter lambda_u unsup_warmup_pos num_train_iter it forward ce_loss exp
        x_lb y_lb x_ulb_w1 x_ulb_w2).total_loss
      = (train_iter lambda_u unsup_warmup_pos num_train_iter it forward ce_loss exp
          x_lb y_lb x_ulb_w1 x_ulb_w2).sup_loss
        + lambda_u
          * (train_iter lambda_u unsup_warmup_pos num_train_iter it forward ce_loss exp
              x_lb y_lb x_ulb_w1 x_ulb_w2).unsup_loss
          * npclip ((it : ℚ) / (unsup_warmup_pos * (num_train_iter : ℚ))) 0 1 :=
  rfl

/-- C5: the unsupervised loss of a training iteration is the
mean-squared error between the softmax outputs of the two
weakly-augmented views — softmax applied to both operands (spec §4.3;
`pimodel_utils.consistency_loss` modelled from the spec, called at
pimodel.py lines 125-126 on the two unlabeled logit tensors). -/
theorem unsup_loss_is_softmax_mse {α β : Type} (lambda_u unsup_warmup_pos : ℚ)
    (num_train_iter it : ℕ) (forward : α → List ℚ) (ce_loss : List ℚ → β → ℚ)
    (exp : ℚ → ℚ) (x_lb : α) (y_lb : β) (x_ulb_w1 x_ulb_w2 : α) :
    (train_iter lambda_u unsup_warmup_pos num_train_iter it forward ce_loss exp
        x_lb y_lb x_ulb_w1 x_ulb_w2).unsup_loss
      = mse_loss (softmax exp (forward x_ulb_w1)) (softmax exp (forward x_ulb_w2)) :=
  rfl

/-- C7: within one training iteration the BN-statistics freezing
brackets exactly the two unlabeled forward passes: the labeled batch is
forwarded with statistics unfrozen, `freeze_bn` precedes the first
unlabeled forward, both unlabeled forwards run frozen, and
`unfreeze_bn` follows them and precedes loss composition (pimodel.py
lines 115-127). -/
theorem bn_freeze_brackets_unlabeled {α β : Type} (lambda_u unsup_warmup_pos : ℚ)
    (num_train_iter it : ℕ) (forward : α → List ℚ) (ce_loss : List ℚ → β → ℚ)
    (exp : ℚ → ℚ) (x_lb : α) (y_lb : β) (x_ulb_w1 x_ulb_w2 : α) :
    (train_iter lambda_u unsup_warmup_pos num_train_iter it forward ce_loss exp
        x_lb y_lb x_ulb_w1 x_ulb_w2).events
      = [TraceEv.forward FwKind.lb false,
         TraceEv.freeze_bn,
         TraceEv.forward FwKind.ulb_w1 true,
         TraceEv.forward FwKind.ulb_w2 true,
         TraceEv.unfreeze_bn,
         TraceEv.compose_loss] :=
  rfl

/-- C6 counterexample: the claim says a best checkpoint is written iff a
strict improvement occurred at that iteration, and that a tie never
triggers a write.  At iteration 0 with the initial tracker
`(best_eval_acc, best_it) = (0, 0)` and an evaluation whose top-1
accuracy ties the initial best at 0, the tracker is not updated, yet
`self.it == best_it` holds and `model_best.pth` is written (pimodel.py
lines 85, 175-186). -/
theorem best_ckpt_tie_write_cex :
    best_ckpt_written 0 ⟨0, 0⟩ 0 true = true ∧
    ¬ (0 : ℚ) > (0 : ℚ) ∧
    eval_update 0 ⟨0, 0⟩ 0 = ⟨0, 0⟩ := by
  refine ⟨by decide, by norm_num, by decide⟩

/-- C6 amended: the tracker is updated iff the new top-1 accuracy is
strictly greater than the previous best; the best checkpoint is written
(on the checkpoint-writing rank) iff either a strict improvement
occurred at this iteration or the pre-update `best_it` already equals
the current iteration — the latter happens in the initial state
`(it, best_it) = (0, 0)` when the first evaluation ties the initial best
accuracy 0. -/
theorem best_tracker_amended (it : ℕ) (tr : BestTracker) (top1 : ℚ) (rank : Bool) :
    (eval_update it tr top1 ≠ tr ↔ top1 > tr.best_eval_acc) ∧
    (best_ckpt_written it tr top1 rank = true ↔
      rank = true ∧ (top1 > tr.best_eval_acc ∨ it = tr.best_it)) := by
  constructor
  · unfold eval_update
    by_cases h : top1 > tr.best_eval_acc
    · simp only [if_pos h, iff_true_intro h, iff_true]
      intro he
      have : top1 = tr.best_eval_acc := by
        have := congrArg BestTracker.best_eval_acc he
        simpa using this
      exact absurd (this ▸ h) (lt_irrefl _)
    · simp [h]
  · unfold best_ckpt_written eval_update
    by_cases h : top1 > tr.best_eval_acc
    · simp [h]
    · simp [h]

/-- C6 amended witness: at iteration 5 with previous best 1/2 achieved
at iteration 3, an evaluation at 3/4 strictly improves: the tracker is
updated and the best checkpoint is written. -/
theorem best_tracker_amended_witness :
    (eval_update 5 ⟨1/2, 3⟩ (3/4) ≠ ⟨1/2, 3⟩ ↔ (3/4 : ℚ) > 1/2) ∧
    (best_ckpt_written 5 ⟨1/2, 3⟩ (3/4) true = true ↔
      true = true ∧ ((3/4 : ℚ) > 1/2 ∨ 5 = 3)) :=
  best_tracker_amended 5 ⟨1/2, 3⟩ (3/4) true

/-- C9: `mixup_one_target` (remixmatch_utils.py lines 30-45): with
`alpha ≤ 0` the mixing coefficient is 1 and both outputs equal the
inputs exactly; with `alpha > 0` and `is_bias` the coefficient is at
least 1/2; and in all cases both outputs are the convex combination
`lam * v + (1 - lam) * v[index]` over the single shared permutation
`index`. -/
theorem mixup_one_target_spec {n : ℕ} (x y : Fin n → ℚ) (alpha : ℚ)
    (is_bias : Bool) (lamDraw : ℚ) (index : Fin n → Fin n)
    (mx my : Fin n → ℚ) (lam : ℚ)
    (h : mixup_one_target x y alpha is_bias lamDraw index = (mx, my, lam)) :
    (alpha ≤ 0 → lam = 1 ∧ mx = x ∧ my = y) ∧
    (0 < alpha → is_bias = true → 1 / 2 ≤ lam) ∧
    (∀ i, mx i = lam * x i + (1 - lam) * x (index i) ∧
          my i = lam * y i + (1 - lam) * y (index i)) := by
  have hx := congrArg (fun t => t.1) h
  have hy := congrArg (fun t => t.2.1) h
  have hl := congrArg (fun t => t.2.2) h
  simp only [mixup_one_target] at hx hy hl
  rw [hl] at hx hy
  refine ⟨?_, ?_, ?_⟩
  · intro ha
    have h0 : ¬ 0 < alpha := not_lt.mpr ha
    have hlam : lam = 1 := by
      rw [← hl]
      cases hb : is_bias <;> norm_num [h0]
    refine ⟨hlam, ?_, ?_⟩
    · rw [← hx]
      funext i
      rw [hlam]
      ring
    · rw [← hy]
      funext i
      rw [hlam]
      ring
  · intro ha hb
    rw [← hl]
    simp only [if_pos ha, hb, if_true]
    rcases le_total (1 / 2 : ℚ) lamDraw with hc | hc
    · exact le_max_of_le_left hc
    · exact le_max_of_le_right (by linarith)
  · intro i
    constructor
    · rw [← hx]
    · rw [← hy]

/-- C9 witness: with `alpha = 0` the outputs are exactly the inputs and
`lam = 1`; with `alpha = 1`, `is_bias = true` and a Beta draw of 1/4 the
coefficient is at least 1/2. -/
theorem mixup_one_target_spec_witness :
    ((mixup_one_target ![(1 : ℚ), 2] ![(3 : ℚ), 4] 0 false 37
          (fun i => i)).2.2 = 1 ∧
      (mixup_one_target ![(1 : ℚ), 2] ![(3 : ℚ), 4] 0 false 37
          (fun i => i)).1 = ![(1 : ℚ), 2] ∧
      (mixup_one_target ![(1 : ℚ), 2] ![(3 : ℚ), 4] 0 false 37
          (fun i => i)).2.1 = ![(3 : ℚ), 4]) ∧
    (1 / 2 : ℚ) ≤ (mixup_one_target ![(1 : ℚ), 2] ![(3 : ℚ), 4] 1 true (1 / 4)
        (fun i => i)).2.2 :=
  ⟨(mixup_one_target_spec ![(1 : ℚ), 2] ![(3 : ℚ), 4] 0 false 37 (fun i => i)
      _ _ _ rfl).1 le_rfl,
   (mixup_one_target_spec ![(1 : ℚ), 2] ![(3 : ℚ), 4] 1 true (1 / 4) (fun i => i)
      _ _ _ rfl).2.1 one_pos rfl⟩

/-- C8: with fixed positive `unsup_warmup_pos` and `num_train_iter`, the
warmup factor (pimodel.py lines 101-102) is monotonically non-decreasing
in the iteration counter, equals 0 at iteration 0, and equals 1 for
every iteration at least `unsup_warmup_pos * num_train_iter`. -/
theorem unsup_warmup_props (unsup_warmup_pos : ℚ) (num_train_iter : ℕ)
    (hpos : 0 < unsup_warmup_pos) (hnum : 0 < num_train_iter) :
    (∀ i j : ℕ, i ≤ j →
        unsup_warmup i unsup_warmup_pos num_train_iter
          ≤ unsup_warmup j unsup_warmup_pos num_train_iter) ∧
    unsup_warmup 0 unsup_warmup_pos num_train_iter = 0 ∧
    (∀ i : ℕ, unsup_warmup_pos * (num_train_iter : ℚ) ≤ (i : ℚ) →
        unsup_warmup i unsup_warmup_pos num_train_iter = 1) := by
  have hd : 0 < unsup_warmup_pos * (num_train_iter : ℚ) := by
    have : (0 : ℚ) < (num_train_iter : ℚ) := by exact_mod_cast hnum
    positivity
  refine ⟨?_, ?_, ?_⟩
  · intro i j hij
    unfold unsup_warmup npclip
    have hdiv : (i : ℚ) / (unsup_warmup_pos * (num_train_iter : ℚ))
        ≤ (j : ℚ) / (unsup_warmup_pos * (num_train_iter : ℚ)) := by
      apply div_le_div_of_nonneg_right ?_ hd.le
      exact_mod_cast hij
    exact min_le_min le_rfl (max_le_max le_rfl hdiv)
  · unfold unsup_warmup npclip
    norm_num
  · intro i hi
    unfold unsup_warmup npclip
    have h1 : (1 : ℚ) ≤ (i : ℚ) / (unsup_warmup_pos * (num_train_iter : ℚ)) :=
      (one_le_div hd).mpr hi
    have h2 : (1 : ℚ) ≤ max 0 ((i : ℚ) / (unsup_warmup_pos * (num_train_iter : ℚ))) :=
      le_max_of_le_right h1
    exact min_eq_left h2

/-- C8 witness: with `unsup_warmup_pos = 1/2` and a budget of 10
iterations the warmup properties hold; in particular the factor is 0 at
iteration 0 and 1 from iteration 5 on. -/
theorem unsup_warmup_props_witness :
    (0 : ℚ) < 1 / 2 ∧ 0 < 10 ∧
    ((∀ i j : ℕ, i ≤ j → unsup_warmup i (1 / 2) 10 ≤ unsup_warmup j (1 / 2) 10) ∧
      unsup_warmup 0 (1 / 2) 10 = 0 ∧
      (∀ i : ℕ, (1 / 2 : ℚ) * (10 : ℚ) ≤ (i : ℚ) → unsup_warmup i (1 / 2) 10 = 1)) :=
  ⟨by norm_num, by norm_num, unsup_warmup_props (1 / 2) 10 (by norm_num) (by norm_num)⟩

/-! Helper lemmas for `interleave_offsets`. -/

theorem getD_replicate_append (a q : ℕ) (tl : List ℕ) :
    (List.replicate (a + 1) q ++ tl).getD a 0 = q := by
  induction a with
  | zero => simp [List.replicate_succ]
  | succ a ih => simpa [List.replicate_succ] using ih

theorem set_replicate_append (a b q : ℕ) :
    (List.replicate (a + 1) q ++ List.replicate b (q + 1)).set a (q + 1)
      = List.replicate a q ++ List.replicate (b + 1) (q + 1) := by
  induction a with
  | zero => simp [List.replicate_succ]
  | succ a ih => simpa [List.replicate_succ] using ih

/-- Effect of the `groups[-x - 1] += 1` loop (pimodel.py lines 318-319):
running it for `r ≤ m` steps turns `[q] * m` into `m - r` copies of `q`
followed by `r` copies of `q + 1`. -/
theorem bump_fold_eq (q : ℕ) : ∀ r m : ℕ, r ≤ m →
    (List.range r).foldl bump_group (List.replicate m q)
      = List.replicate (m - r) q ++ List.replicate r (q + 1) := by
  intro r
  induction r with
  | zero => intro m _; simp
  | succ r ih =>
    intro m hrm
    rw [List.range_succ, List.foldl_append, ih m (Nat.le_of_succ_le hrm),
      List.foldl_cons, List.foldl_nil]
    have hm : m - r = (m - (r + 1)) + 1 := by omega
    rw [hm]
    unfold bump_group
    have hlen : (List.replicate ((m - (r + 1)) + 1) q ++ List.replicate r (q + 1)).length
        = m := by
      simp
      omega
    rw [hlen]
    have hidx : m - r - 1 = m - (r + 1) := by omega
    rw [hidx, getD_replicate_append, set_replicate_append]

theorem scanl_head_eq (b : ℕ) (l : List ℕ) :
    (List.scanl (· + ·) b l).head? = some b := by
  cases l <;> simp

theorem scanl_getLast_eq (l : List ℕ) : ∀ b : ℕ,
    (List.scanl (· + ·) b l).getLast? = some (b + l.sum) := by
  induction l with
  | nil => intro b; simp
  | cons a l ih =>
    intro b
    cases hsc : List.scanl (· + ·) (b + a) l with
    | nil =>
      have := congrArg List.length hsc
      simp [List.length_scanl] at this
    | cons c t =>
      rw [List.scanl_cons, List.singleton_append, hsc, List.getLast?_cons_cons,
        ← hsc, ih (b + a)]
      simp [add_assoc]

theorem scanl_chain_le (l : List ℕ) : ∀ b : ℕ,
    List.Chain' (· ≤ ·) (List.scanl (· + ·) b l) := by
  induction l with
  | nil => intro b; simp
  | cons a l ih =>
    intro b
    rw [List.scanl_cons, List.singleton_append, List.chain'_cons']
    refine ⟨?_, ih (b + a)⟩
    intro y hy
    rw [scanl_head_eq] at hy
    simp at hy
    subst hy
    exact Nat.le_add_right b a

/-- The `groups` list built at pimodel.py lines 317-319. -/
theorem interleave_groups_eq (batch nu : ℕ) :
    (List.range (batch - (List.replicate (nu + 1) (batch / (nu + 1))).sum)).foldl
        bump_group (List.replicate (nu + 1) (batch / (nu + 1)))
      = List.replicate (nu + 1 - batch % (nu + 1)) (batch / (nu + 1))
          ++ List.replicate (batch % (nu + 1)) (batch / (nu + 1) + 1) := by
  have hdm : (nu + 1) * (batch / (nu + 1)) + batch % (nu + 1) = batch :=
    Nat.div_add_mod batch (nu + 1)
  have hrange : batch - (List.replicate (nu + 1) (batch / (nu + 1))).sum
      = batch % (nu + 1) := by
    simp [List.sum_replicate, smul_eq_mul]
    omega
  rw [hrange]
  exact bump_fold_eq _ _ _ (le_of_lt (Nat.mod_lt _ (Nat.succ_pos nu)))

theorem interleave_groups_sum (batch nu : ℕ) :
    (List.replicate (nu + 1 - batch % (nu + 1)) (batch / (nu + 1))
      ++ List.replicate (batch % (nu + 1)) (batch / (nu + 1) + 1)).sum = batch := by
  have hdm : (nu + 1) * (batch / (nu + 1)) + batch % (nu + 1) = batch :=
    Nat.div_add_mod batch (nu + 1)
  have hr : batch % (nu + 1) ≤ nu + 1 := le_of_lt (Nat.mod_lt _ (Nat.succ_pos nu))
  obtain ⟨k, hk⟩ : ∃ k, nu + 1 = batch % (nu + 1) + k := ⟨nu + 1 - batch % (nu + 1), by omega⟩
  have hk2 : nu + 1 - batch % (nu + 1) = k := by omega
  simp only [List.sum_append, List.sum_replicate, smul_eq_mul]
  rw [hk2]
  have : k * (batch / (nu + 1)) + batch % (nu + 1) * (batch / (nu + 1) + 1)
      = (batch % (nu + 1) + k) * (batch / (nu + 1)) + batch % (nu + 1) := by ring
  rw [this, ← hk, hdm]

/-- C10: for every `batch` and `nu`, `interleave_offsets` returns (the
trailing `assert offsets[-1] == batch` never fails) a list of `nu + 2`
non-decreasing naturals starting at 0 and ending at `batch`, the partial
sums of `nu + 1` contiguous group sizes that pairwise differ by at most
1 (pimodel.py lines 316-324). -/
theorem interleave_offsets_spec (batch nu : ℕ) :
    ∃ offs groups,
      interleave_offsets batch nu = some offs ∧
      offs = List.scanl (· + ·) 0 groups ∧
      offs.length = nu + 2 ∧
      offs.head? = some 0 ∧
      offs.getLast? = some batch ∧
      List.Chain' (· ≤ ·) offs ∧
      groups.length = nu + 1 ∧
      (∀ g1 ∈ groups, ∀ g2 ∈ groups, g1 ≤ g2 + 1) := by
  have hr : batch % (nu + 1) ≤ nu + 1 := le_of_lt (Nat.mod_lt _ (Nat.succ_pos nu))
  refine ⟨List.scanl (· + ·) 0
      (List.replicate (nu + 1 - batch % (nu + 1)) (batch / (nu + 1))
        ++ List.replicate (batch % (nu + 1)) (batch / (nu + 1) + 1)),
    List.replicate (nu + 1 - batch % (nu + 1)) (batch / (nu + 1))
      ++ List.replicate (batch % (nu + 1)) (batch / (nu + 1) + 1),
    ?_, rfl, ?_, ?_, ?_, ?_, ?_, ?_⟩
  · simp only [interleave_offsets]
    rw [interleave_groups_eq, scanl_getLast_eq, interleave_groups_sum]
    simp
  · rw [List.length_scanl]
    simp
  · exact scanl_head_eq _ _
  · rw [scanl_getLast_eq, interleave_groups_sum]
    simp
  · exact scanl_chain_le _ _
  · simp
  · intro g1 h1 g2 h2
    simp only [List.mem_append, List.mem_replicate] at h1 h2
    rcases h1 with ⟨-, h1⟩ | ⟨-, h1⟩ <;> rcases h2 with ⟨-, h2⟩ | ⟨-, h2⟩ <;> omega

/-! Helper lemmas for the checkpoint round-trip and fallback. -/

theorem isPrefixOf_append_self : ∀ l t : PName, l.isPrefixOf (l ++ t) = true := by
  intro l
  induction l with
  | nil => intro t; simp
  | cons c cs ih => intro t; simp [List.isPrefixOf_cons₂, ih]

theorem replaceAllF_no_occur (pat : PName) : ∀ (fuel : ℕ) (s : PName),
    s.length ≤ fuel → hasOccur pat s = false → replaceAllF pat fuel s = s := by
  intro fuel
  induction fuel with
  | zero =>
    intro s hs _
    cases s with
    | nil => rfl
    | cons c rest => simp at hs
  | succ fuel ih =>
    intro s hs h
    cases s with
    | nil => rfl
    | cons c rest =>
      simp only [hasOccur, Bool.or_eq_false_iff] at h
      have hs2 : rest.length ≤ fuel := by
        simp only [List.length_cons] at hs
        omega
      show (if pat.isPrefixOf (c :: rest)
          then replaceAllF pat fuel (rest.drop (pat.length - 1))
          else c :: replaceAllF pat fuel rest) = c :: rest
      rw [if_neg (by simp [h.1]), ih rest hs2 h.2]

theorem replaceAll_no_occur (pat s : PName) (h : hasOccur pat s = false) :
    replaceAll pat s = s :=
  replaceAllF_no_occur pat s.length s le_rfl h

theorem replaceAll_cancel_cons (p : Char) (ps k : PName)
    (hk : hasOccur (p :: ps) k = false) :
    replaceAll (p :: ps) ((p :: ps) ++ k) = k := by
  show replaceAllF (p :: ps) ((p :: ps) ++ k).length ((p :: ps) ++ k) = k
  have hl : ((p :: ps) ++ k).length = (ps ++ k).length + 1 := by simp
  rw [hl]
  show (if (p :: ps).isPrefixOf (p :: (ps ++ k))
      then replaceAllF (p :: ps) (ps ++ k).length ((ps ++ k).drop ((p :: ps).length - 1))
      else p :: replaceAllF (p :: ps) (ps ++ k).length (ps ++ k)) = k
  rw [if_pos (show (p :: ps).isPrefixOf (p :: (ps ++ k)) = true from
    isPrefixOf_append_self (p :: ps) k)]
  have hd : (ps ++ k).drop ((p :: ps).length - 1) = k := by
    simp only [List.length_cons, Nat.add_sub_cancel]
    exact List.drop_left ps k
  rw [hd]
  exact replaceAllF_no_occur _ _ _ (by simp) hk

theorem replaceAll_module_cancel (k : PName) (hk : hasOccur MODULE k = false) :
    replaceAll MODULE (MODULE ++ k) = k :=
  replaceAll_cancel_cons 'm' ['o', 'd', 'u', 'l', 'e', '.'] k hk

theorem zip_map_fst (f : PName → PName) :
    ∀ (l1 : List PName) (l2 : List ℤ),
      (l1.zip l2).map (fun kv => (f kv.1, kv.2)) = (l1.map f).zip l2 := by
  intro l1
  induction l1 with
  | nil => intro l2; simp
  | cons a l ih =>
    intro l2
    cases l2 with
    | nil => simp
    | cons b l2 => simp [ih]

theorem strip_module_zip (ns : List PName) (vs : List ℤ)
    (h : ∀ n ∈ ns, hasOccur MODULE n = false) :
    strip_module_sd ((ns.map (fun n => MODULE ++ n)).zip vs) = ns.zip vs := by
  unfold strip_module_sd
  rw [zip_map_fst (replaceAll MODULE) (ns.map (fun n => MODULE ++ n)) vs,
    List.map_map]
  congr 1
  have hpt : ∀ n ∈ ns, (replaceAll MODULE ∘ fun n => MODULE ++ n) n = id n :=
    fun n hn => replaceAll_module_cancel n (h n hn)
  rw [List.map_congr_left hpt, List.map_id]

theorem add_module_zip (ns : List PName) (vs : List ℤ) :
    add_module_sd (ns.zip vs) = (ns.map (fun n => MODULE ++ n)).zip vs := by
  unfold add_module_sd
  exact zip_map_fst (fun n => MODULE ++ n) ns vs

theorem keys_ddp (m : NetModel) (h : m.ddp = true) :
    m.keys = m.names.map (fun n => MODULE ++ n) := by
  unfold NetModel.keys
  rw [h]
  simp

theorem keys_single (m : NetModel) (h : m.ddp = false) : m.keys = m.names := by
  unfold NetModel.keys
  rw [h]
  simp

theorem keys_length (m : NetModel) : m.keys.length = m.names.length := by
  unfold NetModel.keys
  cases hd : m.ddp <;> simp

theorem load_sd_zip (m : NetModel) (ks : List PName) (vs : List ℤ)
    (hk : ks = m.keys) (hlen : vs.length = ks.length) :
    load_state_dict m (ks.zip vs) = some { m with vals := vs } := by
  unfold load_state_dict
  rw [List.map_fst_zip ks vs (le_of_eq hlen.symm), if_pos hk,
    List.map_snd_zip ks vs (le_of_eq hlen)]

theorem load_sd_zip_ne (m : NetModel) (ks : List PName) (vs : List ℤ)
    (hk : ks ≠ m.keys) (hlen : vs.length = ks.length) :
    load_state_dict m (ks.zip vs) = none := by
  unfold load_state_dict
  rw [List.map_fst_zip ks vs (le_of_eq hlen.symm), if_neg hk]

/-- C2: saving and then loading a checkpoint reproduces the iteration
counter, optimizer state, scheduler state, and model parameter values
identically, for every combination of replicated (`"module."`-prefixed)
and single-device naming between the saving and loading instances
(pimodel.py lines 236-313).  The loading instance must have the same
base parameter names, and base names must not contain the reserved
substring `"module."` (which the string surgery at lines 271, 279 would
mangle). -/
theorem save_load_round_trip (s L : PiState) (shadow : List ℤ)
    (hnames : L.model.names = s.model.names)
    (hlen : s.model.vals.length = s.model.names.length)
    (hsh : shadow.length = s.model.names.length)
    (hclean : ∀ n ∈ s.model.names, hasOccur MODULE n = false) :
    ∃ L2 : PiState, load_model L (save_model s shadow) = some L2 ∧
      L2.it = s.it ∧ L2.optimizer = s.optimizer ∧ L2.scheduler = s.scheduler ∧
      L2.model.vals = s.model.vals ∧ L2.ema_model.vals = shadow := by
  have hlen' : s.model.vals.length = s.model.keys.length := by
    rw [keys_length]
    exact hlen
  have hsh' : shadow.length = s.model.keys.length := by
    rw [keys_length]
    exact hsh
  have hsd_model : (save_model s shadow).model = s.model.keys.zip s.model.vals := rfl
  have hsd_ema : (save_model s shadow).ema_model = s.model.keys.zip shadow := rfl
  by_cases hk : s.model.keys = L.model.keys
  · have hdirect : direct_load L (save_model s shadow)
        = some ({ L.model with vals := s.model.vals }, { L.model with vals := shadow }) := by
      simp only [direct_load]
      rw [hsd_model, hsd_ema, load_sd_zip L.model s.model.keys s.model.vals hk hlen',
        load_sd_zip L.model s.model.keys shadow hk hsh']
    refine ⟨⟨{ L.model with vals := s.model.vals }, { L.model with vals := shadow },
      s.optimizer, s.scheduler, s.it⟩, ?_, rfl, rfl, rfl, rfl, rfl⟩
    simp only [load_model, loaded_models]
    rw [hdirect]
    rfl
  · have hddp : ¬ s.model.ddp = L.model.ddp := by
      intro he
      apply hk
      unfold NetModel.keys
      rw [he, hnames]
    have hfail : direct_load L (save_model s shadow) = none := by
      simp only [direct_load]
      rw [hsd_model, load_sd_zip_ne L.model s.model.keys s.model.vals hk hlen']
    cases hLd : L.model.ddp with
    | false =>
      have hsd : s.model.ddp = true := by
        cases hs : s.model.ddp
        · exact absurd (hs.trans hLd.symm) hddp
        · rfl
      have hkeys_s : s.model.keys = s.model.names.map (fun n => MODULE ++ n) :=
        keys_ddp _ hsd
      have hkeys_L : L.model.keys = s.model.names := by
        rw [keys_single _ hLd, hnames]
      have hstrip1 : strip_module_sd (s.model.keys.zip s.model.vals)
          = s.model.names.zip s.model.vals := by
        rw [hkeys_s, strip_module_zip _ _ hclean]
      have hstrip2 : strip_module_sd (s.model.keys.zip shadow)
          = s.model.names.zip shadow := by
        rw [hkeys_s, strip_module_zip _ _ hclean]
      have hload1 : load_state_dict L.model (s.model.names.zip s.model.vals)
          = some { L.model with vals := s.model.vals } :=
        load_sd_zip _ _ _ hkeys_L.symm hlen
      have hload2 : load_state_dict L.model (s.model.names.zip shadow)
          = some { L.model with vals := shadow } :=
        load_sd_zip _ _ _ hkeys_L.symm hsh
      refine ⟨⟨{ L.model with vals := s.model.vals }, { L.model with vals := shadow },
        s.optimizer, s.scheduler, s.it⟩, ?_, rfl, rfl, rfl, rfl, rfl⟩
      simp only [load_model, loaded_models, hfail]
      rw [if_pos hLd, hsd_model, hstrip1, hload1, hsd_ema, hstrip2, hload2]
      rfl
    | true =>
      have hsd : s.model.ddp = false := by
        cases hs : s.model.ddp
        · rfl
        · exact absurd (hs.trans hLd.symm) hddp
      have hkeys_s : s.model.keys = s.model.names := keys_single _ hsd
      have hkeys_L : L.model.keys = s.model.names.map (fun n => MODULE ++ n) := by
        rw [keys_ddp _ hLd, hnames]
      have hadd1 : add_module_sd (s.model.keys.zip s.model.vals)
          = (s.model.names.map (fun n => MODULE ++ n)).zip s.model.vals := by
        rw [hkeys_s, add_module_zip]
      have hadd2 : add_module_sd (s.model.keys.zip shadow)
          = (s.model.names.map (fun n => MODULE ++ n)).zip shadow := by
        rw [hkeys_s, add_module_zip]
      have hload1 : load_state_dict L.model
          ((s.model.names.map (fun n => MODULE ++ n)).zip s.model.vals)
          = some { L.model with vals := s.model.vals } :=
        load_sd_zip _ _ _ hkeys_L.symm (by simp [hlen])
      have hload2 : load_state_dict L.model
          ((s.model.names.map (fun n => MODULE ++ n)).zip shadow)
          = some { L.model with vals := shadow } :=
        load_sd_zip _ _ _ hkeys_L.symm (by simp [hsh])
      refine ⟨⟨{ L.model with vals := s.model.vals }, { L.model with vals := shadow },
        s.optimizer, s.scheduler, s.it⟩, ?_, rfl, rfl, rfl, rfl, rfl⟩
      simp only [load_model, loaded_models, hfail]
      rw [if_neg (by simp [hLd]), hsd_model, hadd1, hload1, hsd_ema, hadd2, hload2]
      rfl

/-- C2 witness: a replicated saver (prefixed names) checkpointed at
iteration 42 round-trips into a single-device loader, reproducing
iteration, optimizer, scheduler, model values and EMA shadow values. -/
theorem save_load_round_trip_witness :
    ex_loader.model.names = ex_saver.model.names ∧
    ex_saver.model.vals.length = ex_saver.model.names.length ∧
    ([(9 : ℤ)] : List ℤ).length = ex_saver.model.names.length ∧
    (∀ n ∈ ex_saver.model.names, hasOccur MODULE n = false) ∧
    (∃ L2 : PiState, load_model ex_loader (save_model ex_saver [9]) = some L2 ∧
      L2.it = ex_saver.it ∧ L2.optimizer = ex_saver.optimizer ∧
      L2.scheduler = ex_saver.scheduler ∧
      L2.model.vals = ex_saver.model.vals ∧ L2.ema_model.vals = [9]) :=
  ⟨rfl, rfl, rfl, by decide,
    save_load_round_trip ex_saver ex_loader [9] rfl rfl rfl (by decide)⟩

/-- C3: whenever `load_model` returns, the returned state carries the
checkpoint's optimizer state, scheduler state and iteration counter
(lines 311-313 run unconditionally on both the direct and the fallback
path); and when the direct deserialization raises a compatibility
error, `load_model` performs exactly the name-based reconciliation —
stripping `"module."` from every stored key when the current model is
single-device, prefixing it when the current model is replicated
(pimodel.py lines 254-313). -/
theorem load_model_fallback_restores (s : PiState) (c : Checkpoint) :
    (∀ L2 : PiState, load_model s c = some L2 →
        L2.optimizer = c.optimizer ∧ L2.scheduler = c.scheduler ∧ L2.it = c.it) ∧
    (direct_load s c = none → s.model.ddp = false →
      load_model s c =
        (match load_state_dict s.model (strip_module_sd c.model) with
          | none => none
          | some m =>
            match load_state_dict s.model (strip_module_sd c.ema_model) with
            | none => none
            | some e => some { model := m, ema_model := e, optimizer := c.optimizer,
                               scheduler := c.scheduler, it := c.it })) ∧
    (direct_load s c = none → s.model.ddp = true →
      load_model s c =
        (match load_state_dict s.model (add_module_sd c.model) with
          | none => none
          | some m =>
            match load_state_dict s.model (add_module_sd c.ema_model) with
            | none => none
            | some e => some { model := m, ema_model := e, optimizer := c.optimizer,
                               scheduler := c.scheduler, it := c.it })) := by
  refine ⟨?_, ?_, ?_⟩
  · intro L2 h
    simp only [load_model] at h
    rcases hm : loaded_models s c with - | me
    · rw [hm] at h
      simp at h
    · rw [hm] at h
      simp only [Option.map_some'] at h
      cases h
      exact ⟨rfl, rfl, rfl⟩
  · intro hfail hddp
    simp only [load_model, loaded_models, hfail]
    rw [if_pos hddp]
    rcases h1 : load_state_dict s.model (strip_module_sd c.model) with - | m
    · rfl
    · rcases h2 : load_state_dict s.model (strip_module_sd c.ema_model) with - | e
      · rfl
      · rfl
  · intro hfail hddp
    simp only [load_model, loaded_models, hfail]
    rw [if_neg (by simp [hddp])]
    rcases h1 : load_state_dict s.model (add_module_sd c.model) with - | m
    · rfl
    · rcases h2 : load_state_dict s.model (add_module_sd c.ema_model) with - | e
      · rfl
      · rfl

/-- C3 witness: `ex_ckpt` was saved from a replicated model, so loading
it into the single-device `ex_loader` makes the direct deserialization
fail; `load_model` then takes the stripping fallback and the returned
state carries the checkpoint's optimizer (7), scheduler (8) and
iteration (42). -/
theorem load_model_fallback_witness :
    load_model ex_loader ex_ckpt =
      (match load_state_dict ex_loader.model (strip_module_sd ex_ckpt.model) with
        | none => none
        | some m =>
          match load_state_dict ex_loader.model (strip_module_sd ex_ckpt.ema_model) with
          | none => none
          | some e => some { model := m, ema_model := e, optimizer := ex_ckpt.optimizer,
                             scheduler := ex_ckpt.scheduler, it := ex_ckpt.it }) ∧
    (⟨⟨false, ex_names, [3]⟩, ⟨false, ex_names, [9]⟩, 7, 8, 42⟩ : PiState).optimizer
        = ex_ckpt.optimizer ∧
    (⟨⟨false, ex_names, [3]⟩, ⟨false, ex_names, [9]⟩, 7, 8, 42⟩ : PiState).scheduler
        = ex_ckpt.scheduler ∧
    (⟨⟨false, ex_names, [3]⟩, ⟨false, ex_names, [9]⟩, 7, 8, 42⟩ : PiState).it
        = ex_ckpt.it :=
  ⟨(load_model_fallback_restores ex_loader ex_ckpt).2.1 rfl rfl,
   (load_model_fallback_restores ex_loader ex_ckpt).1
      ⟨⟨false, ex_names, [3]⟩, ⟨false, ex_names, [9]⟩, 7, 8, 42⟩ (by decide)⟩

end SSLFER
